import Mathlib

/-!
Shallow embedding of the GitHub repository-analysis core:
the GitHub service (repository listing, cached; bounded-depth tree
traversal), the heuristic code analyzer (frameworks, technologies,
patterns, complexity, purpose, features) and the security scanner,
together with theorems about the properties the specification states.

Sources embedded (translated definition by definition):
- `src/lib/github-service.ts` — multi-account variant (accounts map,
  per-account error recovery in `getAllRepositories`) and the
  single-account variant (`setAccount` / `isConfigured`, throwing
  `getAllRepositories`); both share `traverseRepository`,
  `shouldFetchContent`, `isConfigFile`, `getFileExtension`.
- `src/lib/code-analyzer.ts` — `CodeAnalyzer`.
- `src/mastra/tools/github-repository.ts` — `listRepositoriesTool`.
- `src/mastra/tools/github-analyzer.ts` — `analyzeCodebaseTool`.
- `src/mastra/tools/github-security.ts` — `securityScanTool`.

External boundaries (the network, base64 decoding, `JSON.parse`,
`JSON.stringify`, `Date` arithmetic, `localeCompare`) are modelled as
explicit inputs: remote answers are data (`GitTree`, `Except` results)
and the JSON / date / locale functions are parameters of the embedded
operations, so every theorem holds for all behaviours of those
externals.
-/

namespace GithubPartner

/-! ## JavaScript string primitives used by the source -/

/-- Whether `pat` occurs at the start of `s`, on character lists. -/
def listStartsWith : List Char → List Char → Bool
  | _, [] => true
  | [], _ :: _ => false
  | c :: cs, p :: ps => c = p && listStartsWith cs ps

/-- Whether `pat` occurs contiguously anywhere in `s`. -/
def listHasInfix (s pat : List Char) : Bool :=
  if listStartsWith s pat then true
  else
    match s with
    | [] => false
    | _ :: cs => listHasInfix cs pat

/-- JavaScript `s.includes(pat)`: case-sensitive substring containment. -/
def strIncludes (s pat : String) : Bool :=
  listHasInfix s.toList pat.toList

/-- JavaScript `s.toLowerCase()` on the ASCII range: `Char.toLower` over
the characters.  (`String.toLower` computes the same characters through
an accumulator that does not reduce definitionally, so the map is taken
directly here.) -/
def strToLower (s : String) : String :=
  String.mk (s.toList.map Char.toLower)

/-- JavaScript `s.startsWith(pat)` / the `dep.startsWith("@angular/")`
check. -/
def strStartsWith (s pat : String) : Bool :=
  listStartsWith s.toList pat.toList

/-- JavaScript `s.split(sep)` for a one-character separator, on character
lists. -/
def splitOnChar (sep : Char) : List Char → List (List Char)
  | [] => [[]]
  | c :: rest =>
      match splitOnChar sep rest with
      | [] => [[]]
      | cur :: parts =>
          if c = sep then [] :: cur :: parts else (c :: cur) :: parts

/-! ## Data model (`src/lib/types.ts`) -/

/-- `Repository` of `src/lib/types.ts`. `private` is a Lean keyword, so the
field is named `isPrivate`. -/
structure Repository where
  id : Nat
  name : String
  fullName : String
  description : Option String
  language : Option String
  stars : Nat
  forks : Nat
  size : Nat
  updatedAt : String
  createdAt : String
  isPrivate : Bool
  url : String
  account : String
  username : String
  topics : List String
  license : Option String
  defaultBranch : String
  deriving Repr, DecidableEq

/-- `FileContent` of `src/lib/types.ts` (traversal only ever builds entries
with `type: "file"`, so the tag is omitted). -/
structure FileContent where
  name : String
  path : String
  sha : String
  size : Nat
  url : String
  content : Option String := none
  encoding : Option String := none
  deriving Repr, DecidableEq

/-- A parsed `package.json` manifest, the shape every consumer of
`structure.packageJsons` reads (`name`, `version`, `dependencies`,
`devDependencies`).  Dependency maps are JavaScript objects: assoc lists in
insertion order with unique keys. -/
structure PackageJson where
  name : Option String := none
  version : Option String := none
  dependencies : List (String × String) := []
  devDependencies : List (String × String) := []
  deriving Repr, DecidableEq

/-- `ProjectStructure` of `src/lib/types.ts`.  `languages` is a JavaScript
object `Record<string, number>`: an insertion-ordered assoc list with
unique keys. -/
structure ProjectStructure where
  files : List FileContent
  directories : List String
  languages : List (String × Nat)
  packageJsons : List PackageJson
  readmes : List FileContent
  configs : List FileContent
  deriving Repr, DecidableEq

/-- The fresh, empty structure built at the top of
`getRepositoryStructure`. -/
def emptyStructure : ProjectStructure :=
  ⟨[], [], [], [], [], []⟩

/-! ## GitHubService helpers (`src/lib/github-service.ts`) -/

/-- The `importantFiles` allow-list of `shouldFetchContent`. -/
def importantFiles : List String :=
  ["package.json", "tsconfig.json", "vite.config", "webpack.config",
   "readme.md", "readme.txt", ".env.example", "dockerfile",
   "docker-compose", "makefile", "cargo.toml", "go.mod",
   "requirements.txt", "pyproject.toml", "pom.xml", "build.gradle"]

/-- `GitHubService.shouldFetchContent`. -/
def shouldFetchContent (fileName : String) : Bool :=
  importantFiles.any (fun pat => strIncludes (strToLower fileName) pat)

/-- The `configPatterns` allow-list of `isConfigFile`. -/
def configPatterns : List String :=
  ["tsconfig", "vite.config", "webpack.config", "rollup.config",
   "jest.config", "cypress.config", "tailwind.config", "next.config",
   "nuxt.config", ".eslintrc", ".prettierrc", "babel.config"]

/-- `GitHubService.isConfigFile` (its caller passes an
already-lowercased name). -/
def isConfigFile (fileName : String) : Bool :=
  configPatterns.any (fun pat => strIncludes fileName pat)

/-- `GitHubService.getFileExtension`: split on `.`; if more than one part,
the last part lowercased, otherwise `null`. -/
def getFileExtension (fileName : String) : Option String :=
  let parts := (splitOnChar '.' fileName.toList).map String.mk
  if parts.length > 1 then some (strToLower (parts.getLastD "")) else none

/-- The JavaScript update `languages[ext] = (languages[ext] || 0) + 1` on
an object: bump the existing key in place, or append a fresh key with
count 1. -/
def bumpLang (langs : List (String × Nat)) (ext : String) : List (String × Nat) :=
  match langs with
  | [] => [(ext, 1)]
  | (k, v) :: rest =>
      if k = ext then (k, v + 1) :: rest else (k, v) :: bumpLang rest ext

/-- The JavaScript object read `languages[k]` on the same representation:
the value at the first (and, as built, only) entry for key `k`. -/
def langLookup (langs : List (String × Nat)) (k : String) : Option Nat :=
  match langs with
  | [] => none
  | (k2, v) :: rest => if k2 = k then some v else langLookup rest k

/-! ## Remote repository tree

The GitHub contents API is modelled as data: a tree whose nodes carry the
answers the remote would give.  A directory node records whether listing
it succeeds (`dirOk` with its entries) or fails (`dirErr`); a file node
carries the outcome of the content fetch `getContent` would perform for
it.  (The source normalizes a single-file response with
`Array.isArray(contents) ? contents : [contents]`; a listing here is
always already a list of entries.) -/

/-- Decoded content of a file as delivered by the remote: the base64 body
after `Buffer.from(-, "base64").toString()` plus its encoding tag. -/
structure ContentData where
  text : String
  encoding : String
  deriving Repr, DecidableEq

/-- Remote-side metadata of one file entry, with the predetermined outcome
of fetching its content: `Except.error` = the fetch rejects (caught and
logged by the source); `Except.ok none` = the response has no usable
(truthy) `content` field; `Except.ok (some c)` = decoded content `c`. -/
structure FileMeta where
  name : String
  path : String
  sha : String
  size : Nat
  htmlUrl : Option String
  fetchResult : Except Unit (Option ContentData)
  deriving Repr

/-- A node of the remote file tree. -/
inductive GitTree where
  | file : FileMeta → GitTree
  | dirOk : String → List GitTree → GitTree
  | dirErr : String → GitTree
  deriving Repr

/-! ## Tree traversal (`GitHubService.traverseRepository`)

`JSON.parse` is external; traversal takes it as a parameter
`parseJson : String → Option PackageJson` (`none` = the parse throws,
which the source catches, logs and skips). -/

/-- The `fileInfo` object of the file branch: the base `FileContent`,
with content and encoding attached only when the name passes
`shouldFetchContent` and the fetch yields a truthy `content` field. -/
def buildFileInfo (meta : FileMeta) : FileContent :=
  let base : FileContent :=
    { name := meta.name, path := meta.path, sha := meta.sha,
      size := meta.size, url := meta.htmlUrl.getD "" }
  if shouldFetchContent meta.name then
    match meta.fetchResult with
    | Except.ok (some cd) =>
        { base with content := some cd.text, encoding := some cd.encoding }
    | _ => base
  else base

/-- The file branch of the traversal loop body: build the `FileContent`,
push it on `files`, then categorize it into `packageJsons` / `readmes` /
`configs` and bump the extension count.  The bump is guarded by the
source's `if (extension)` truthiness check: a `null` extension (no dot)
and the falsy empty-string extension (name ending in a dot) both add no
entry. -/
def processFile (parseJson : String → Option PackageJson)
    (s : ProjectStructure) (meta : FileMeta) : ProjectStructure :=
  let fileInfo : FileContent := buildFileInfo meta
  let s := { s with files := s.files ++ [fileInfo] }
  let fileName := strToLower meta.name
  let s :=
    if strIncludes fileName "package.json" then
      match fileInfo.content with
      | some c =>
          match parseJson c with
          | some pkg => { s with packageJsons := s.packageJsons ++ [pkg] }
          | none => s
      | none => s
    else s
  let s :=
    if strIncludes fileName "readme" then
      { s with readmes := s.readmes ++ [fileInfo] }
    else s
  let s :=
    if isConfigFile fileName then
      { s with configs := s.configs ++ [fileInfo] }
    else s
  match getFileExtension meta.name with
  | some ext =>
      if ext = "" then s
      else { s with languages := bumpLang s.languages ext }
  | none => s

/-- The `for (const item of items)` loop of `traverseRepository` at depth
`currentDepth`.  For a subdirectory the source pushes its path and then
recursively calls `traverseRepository` with `currentDepth + 1`; the
callee's entry guard (`currentDepth > maxDepth` returns at once) and its
catch-all around the listing call are inlined here at the call site: a
`dirErr` subdirectory contributes its path and nothing else, exactly as
in the source where the inner listing error is caught and logged. -/
def traverseItems (parseJson : String → Option PackageJson)
    (maxDepth currentDepth : Nat) (items : List GitTree)
    (s : ProjectStructure) : ProjectStructure :=
  match items with
  | [] => s
  | GitTree.file meta :: rest =>
      traverseItems parseJson maxDepth currentDepth rest
        (processFile parseJson s meta)
  | GitTree.dirOk p children :: rest =>
      let s1 := { s with directories := s.directories ++ [p] }
      let s2 :=
        if currentDepth + 1 > maxDepth then s1
        else traverseItems parseJson maxDepth (currentDepth + 1) children s1
      traverseItems parseJson maxDepth currentDepth rest s2
  | GitTree.dirErr p :: rest =>
      let s1 := { s with directories := s.directories ++ [p] }
      traverseItems parseJson maxDepth currentDepth rest s1

/-- `GitHubService.traverseRepository` for one path: the depth guard, then
the listing call whose failure is caught (the structure is returned
undisturbed), then the loop over entries.  The source's defaults are
`maxDepth = 3`, `currentDepth = 0`. -/
def traverseRepository (parseJson : String → Option PackageJson)
    (maxDepth currentDepth : Nat) (listing : Except String (List GitTree))
    (s : ProjectStructure) : ProjectStructure :=
  if currentDepth > maxDepth then s
  else
    match listing with
    | Except.error _ => s
    | Except.ok items => traverseItems parseJson maxDepth currentDepth items s

/-! ## Traversal instrumentation

`traverseLog` / `traverseItemsLog` shadow the traversal above and record
the depth of every listing call (`octokit.repos.getContent` on a path)
that is actually issued — the observable remote work of the recursion.
The recursion, guards and catch handling are those of
`traverseRepository` / `traverseItems`; only the observation differs. -/

/-- Depths of the listing calls issued while looping over `items` at
`currentDepth` (the guard of the recursive call for a subdirectory is the
inlined `currentDepth + 1 > maxDepth`, as in `traverseItems`; a `dirErr`
subdirectory still issues its listing call — it merely fails). -/
def traverseItemsLog (maxDepth currentDepth : Nat) :
    List GitTree → List Nat
  | [] => []
  | GitTree.file _ :: rest => traverseItemsLog maxDepth currentDepth rest
  | GitTree.dirOk _ children :: rest =>
      (if currentDepth + 1 > maxDepth then []
       else (currentDepth + 1) :: traverseItemsLog maxDepth (currentDepth + 1) children)
        ++ traverseItemsLog maxDepth currentDepth rest
  | GitTree.dirErr _ :: rest =>
      (if currentDepth + 1 > maxDepth then [] else [currentDepth + 1])
        ++ traverseItemsLog maxDepth currentDepth rest

/-- Depths of the listing calls issued by `traverseRepository` entered at
`currentDepth`: none when the depth guard fires, one for the current path
otherwise (even when it fails), plus those of the loop. -/
def traverseLog (maxDepth currentDepth : Nat)
    (listing : Except String (List GitTree)) : List Nat :=
  if currentDepth > maxDepth then []
  else
    match listing with
    | Except.error _ => [currentDepth]
    | Except.ok items =>
        currentDepth :: traverseItemsLog maxDepth currentDepth items

/-- Reference pass over the root entries only: every file is processed,
every subdirectory contributes exactly its path, and no subdirectory's
entries are examined.  Used to state what `maxDepth = 0` traversal does. -/
def rootOnlyPass (parseJson : String → Option PackageJson)
    (items : List GitTree) (s : ProjectStructure) : ProjectStructure :=
  items.foldl
    (fun acc it =>
      match it with
      | GitTree.file meta => processFile parseJson acc meta
      | GitTree.dirOk p _ => { acc with directories := acc.directories ++ [p] }
      | GitTree.dirErr p => { acc with directories := acc.directories ++ [p] })
    s

/-! ## Repository listing (`GitHubService.getAllRepositories`)

The remote's answer to `repos.listForAuthenticatedUser` is a parameter:
either the page of raw repositories or the message of the error the call
rejects with (after the client's retries are exhausted). -/

/-- A raw repository as returned by the remote list call (the fields the
normalization reads).  `updated_at` / `created_at` are optional in the
client's response type, hence the fallbacks in the source. -/
structure RemoteRepo where
  id : Nat
  name : String
  fullName : String
  description : Option String
  language : Option String
  stargazersCount : Nat
  forksCount : Nat
  size : Nat
  updatedAt : Option String
  createdAt : Option String
  isPrivate : Bool
  htmlUrl : String
  topics : Option (List String)
  licenseName : Option String
  defaultBranch : String
  deriving Repr, DecidableEq

/-- Errors a service operation rejects with. -/
inductive ServiceError where
  | notConfigured : ServiceError
  | upstream : String → ServiceError
  | accountNotFound : String → ServiceError
  deriving Repr, DecidableEq

/-- One cached value with its capture timestamp. -/
structure CacheEntry where
  data : List Repository
  timestamp : Nat
  deriving Repr, DecidableEq

/-- `CACHE_TTL = 5 * 60 * 1000` milliseconds. -/
def CACHE_TTL : Nat := 5 * 60 * 1000

/-- The field mapping of the single-account `getAllRepositories`
(`repo.updated_at || new Date().toISOString()`, `repo.topics || []`,
`repo.license?.name || null`); `nowIso` is the timestamp string the
fallback would produce. -/
def normalizeRepo (accountId username nowIso : String) (r : RemoteRepo) :
    Repository :=
  { id := r.id, name := r.name, fullName := r.fullName,
    description := r.description, language := r.language,
    stars := r.stargazersCount, forks := r.forksCount, size := r.size,
    updatedAt := r.updatedAt.getD nowIso,
    createdAt := r.createdAt.getD nowIso,
    isPrivate := r.isPrivate, url := r.htmlUrl, account := accountId,
    username := username, topics := r.topics.getD [],
    license := r.licenseName, defaultBranch := r.defaultBranch }

/-- Single-account `GitHubService.getAllRepositories`: the configuration
guard, the TTL-checked cache read, then the remote call whose rejection
is wrapped in `Failed to fetch repositories: ...` and re-thrown (the
cache write of the success path returns the same value that is cached,
so only the returned value is modelled). -/
def getAllRepositoriesSingle (configured : Bool) (username nowIso : String)
    (forceRefresh : Bool) (cached : Option CacheEntry) (now : Nat)
    (remote : Except String (List RemoteRepo)) :
    Except ServiceError (List Repository) :=
  if configured = false then Except.error ServiceError.notConfigured
  else
    let fetched : Except ServiceError (List Repository) :=
      match remote with
      | Except.ok repos =>
          Except.ok (repos.map (normalizeRepo "current" username nowIso))
      | Except.error msg =>
          Except.error
            (ServiceError.upstream ("Failed to fetch repositories: " ++ msg))
    match cached with
    | some e =>
        if forceRefresh = false && now - e.timestamp < CACHE_TTL then
          Except.ok e.data
        else fetched
    | none => fetched

/-- One configured account of the multi-account service together with the
answer its remote list call would produce. -/
structure AccountFetch where
  accountId : String
  username : String
  fetch : Except String (List RemoteRepo)
  deriving Repr

/-- The field mapping of the multi-account `getAllRepositories` (it
forwards `updated_at` / `created_at` as-is; an absent value is modelled
as the empty string the `as any` cast lets through). -/
def normalizeRepoMulti (accountId username : String) (r : RemoteRepo) :
    Repository :=
  { id := r.id, name := r.name, fullName := r.fullName,
    description := r.description, language := r.language,
    stars := r.stargazersCount, forks := r.forksCount, size := r.size,
    updatedAt := r.updatedAt.getD "", createdAt := r.createdAt.getD "",
    isPrivate := r.isPrivate, url := r.htmlUrl, account := accountId,
    username := username, topics := r.topics.getD [],
    license := r.licenseName, defaultBranch := r.defaultBranch }

/-- Multi-account `GitHubService.getAllRepositories`
(`src/lib/github-service.ts`): the TTL-checked cache read, then one list
call per account inside a `try`/`catch` whose handler only logs and
continues with the other accounts, then the accumulated list is cached
and returned — the operation itself never rejects. -/
def getAllRepositoriesMulti (accounts : List AccountFetch)
    (forceRefresh : Bool) (cached : Option CacheEntry) (now : Nat) :
    Except ServiceError (List Repository) :=
  let fetched : List Repository :=
    accounts.foldl
      (fun acc a =>
        match a.fetch with
        | Except.ok repos =>
            acc ++ repos.map (normalizeRepoMulti a.accountId a.username)
        | Except.error _ => acc)
      []
  match cached with
  | some e =>
      if forceRefresh = false && now - e.timestamp < CACHE_TTL then
        Except.ok e.data
      else Except.ok fetched
  | none => Except.ok fetched

/-! ## Structure retrieval (`GitHubService.getRepositoryStructure`) -/

/-- Single-account `getRepositoryStructure`: the configuration guard,
then a fresh empty structure filled by `traverseRepository` with the
default bounds `maxDepth = 3`, `currentDepth = 0`; `rootListing` is the
remote's answer for the root path `""`. -/
def getRepositoryStructureSingle (parseJson : String → Option PackageJson)
    (configured : Bool) (rootListing : Except String (List GitTree)) :
    Except ServiceError ProjectStructure :=
  if configured = false then Except.error ServiceError.notConfigured
  else Except.ok (traverseRepository parseJson 3 0 rootListing emptyStructure)

/-- Multi-account `getRepositoryStructure`: throws
`Account not found for username: ...` when no account matches `owner`,
otherwise traverses with the default bounds. -/
def getRepositoryStructureMulti (parseJson : String → Option PackageJson)
    (accountExists : Bool) (owner : String)
    (rootListing : Except String (List GitTree)) :
    Except ServiceError ProjectStructure :=
  if accountExists = false then
    Except.error (ServiceError.accountNotFound owner)
  else Except.ok (traverseRepository parseJson 3 0 rootListing emptyStructure)

/-! ## Code analyzer (`src/lib/code-analyzer.ts`) -/

/-- JavaScript `Set<string>.add` observed through insertion order:
append the element unless already present. -/
def setAdd (l : List String) (x : String) : List String :=
  if l.contains x then l else l ++ [x]

/-- The object spread `{ ...a, ...b }` on string-valued records: `a`'s
keys in order with `b`'s value where both define the key, then `b`'s
remaining keys in order. -/
def spreadMerge (a b : List (String × String)) :
    List (String × String) :=
  a.map (fun p => (p.1, (b.lookup p.1).getD p.2))
    ++ b.filter (fun p => (a.lookup p.1).isNone)

/-- The merged dependency key set `Object.keys({ ...pkg.dependencies,
...pkg.devDependencies })` walked by the analyzer's loops. -/
def depKeys (pkg : PackageJson) : List String :=
  (spreadMerge pkg.dependencies pkg.devDependencies).map Prod.fst

/-- `CodeAnalyzer.detectFrameworks`: exact / `@angular/` matches over the
merged dependency keys of every manifest, then the directory fallback
(`components`-like and `pages`-like directory present, no manifest
match ⇒ `Custom Framework`). -/
def detectFrameworks (ps : ProjectStructure) : List String :=
  let frameworks :=
    ps.packageJsons.foldl
      (fun acc pkg =>
        (depKeys pkg).foldl
          (fun acc dep =>
            let acc := if dep = "react" then setAdd acc "React" else acc
            let acc := if dep = "next" then setAdd acc "Next.js" else acc
            let acc := if dep = "gatsby" then setAdd acc "Gatsby" else acc
            let acc := if dep = "vue" then setAdd acc "Vue.js" else acc
            let acc := if dep = "nuxt" then setAdd acc "Nuxt.js" else acc
            let acc :=
              if strStartsWith dep "@angular/" then setAdd acc "Angular" else acc
            let acc := if dep = "express" then setAdd acc "Express.js" else acc
            let acc := if dep = "fastify" then setAdd acc "Fastify" else acc
            let acc := if dep = "koa" then setAdd acc "Koa" else acc
            let acc := if dep = "nestjs" then setAdd acc "NestJS" else acc
            let acc := if dep = "svelte" then setAdd acc "Svelte" else acc
            if dep = "remix" then setAdd acc "Remix" else acc)
          acc)
      []
  let hasComponents := ps.directories.any
    (fun dir => strIncludes dir "components" || strIncludes dir "component")
  let hasPages := ps.directories.any
    (fun dir => strIncludes dir "pages" || strIncludes dir "page")
  if hasComponents && hasPages && frameworks.length = 0 then
    setAdd frameworks "Custom Framework"
  else frameworks

/-- The `switch` of `detectTechnologies` over one file extension. -/
def extensionTechnology (ext : String) : Option String :=
  if ext = "ts" then some "TypeScript"
  else if ext = "js" then some "JavaScript"
  else if ext = "jsx" then some "JSX"
  else if ext = "tsx" then some "TSX"
  else if ext = "py" then some "Python"
  else if ext = "rs" then some "Rust"
  else if ext = "go" then some "Go"
  else if ext = "java" then some "Java"
  else if ext = "cpp" || ext = "cc" || ext = "cxx" then some "C++"
  else if ext = "c" then some "C"
  else if ext = "rb" then some "Ruby"
  else if ext = "php" then some "PHP"
  else if ext = "swift" then some "Swift"
  else if ext = "kt" then some "Kotlin"
  else if ext = "dart" then some "Dart"
  else if ext = "css" then some "CSS"
  else if ext = "scss" then some "SCSS"
  else if ext = "sass" then some "Sass"
  else if ext = "less" then some "Less"
  else none

/-- `CodeAnalyzer.detectTechnologies`: the extension table over
`Object.keys(structure.languages)`, then substring matches over the
merged dependency keys of every manifest. -/
def detectTechnologies (ps : ProjectStructure) : List String :=
  let fromExt :=
    (ps.languages.map Prod.fst).foldl
      (fun acc ext =>
        match extensionTechnology ext with
        | some t => setAdd acc t
        | none => acc)
      []
  ps.packageJsons.foldl
    (fun acc pkg =>
      (depKeys pkg).foldl
        (fun acc dep =>
          let acc := if strIncludes dep "tailwind" then setAdd acc "Tailwind CSS" else acc
          let acc := if strIncludes dep "styled-components" then setAdd acc "Styled Components" else acc
          let acc := if strIncludes dep "emotion" then setAdd acc "Emotion" else acc
          let acc := if strIncludes dep "prisma" then setAdd acc "Prisma" else acc
          let acc := if strIncludes dep "mongoose" then setAdd acc "MongoDB" else acc
          let acc := if strIncludes dep "postgres" || strIncludes dep "pg" then setAdd acc "PostgreSQL" else acc
          let acc := if strIncludes dep "mysql" then setAdd acc "MySQL" else acc
          let acc := if strIncludes dep "redis" then setAdd acc "Redis" else acc
          let acc := if strIncludes dep "graphql" then setAdd acc "GraphQL" else acc
          let acc := if strIncludes dep "apollo" then setAdd acc "Apollo" else acc
          let acc := if strIncludes dep "stripe" then setAdd acc "Stripe" else acc
          let acc := if strIncludes dep "auth0" then setAdd acc "Auth0" else acc
          let acc := if strIncludes dep "firebase" then setAdd acc "Firebase" else acc
          if strIncludes dep "aws-sdk" then setAdd acc "AWS" else acc)
        acc)
    fromExt

/-- `CodeAnalyzer.detectPatterns`: substring rules over lowercased
directory paths and file names; every matching rule fires. -/
def detectPatterns (ps : ProjectStructure) : List String :=
  let dirs := ps.directories.map (fun d => strToLower d)
  let files := ps.files.map (fun f => strToLower f.name)
  let acc : List String := []
  let acc := if dirs.any (fun d => strIncludes d "components") then setAdd acc "Component Architecture" else acc
  let acc := if dirs.any (fun d => strIncludes d "hooks") then setAdd acc "Custom Hooks" else acc
  let acc := if dirs.any (fun d => strIncludes d "context") then setAdd acc "Context API" else acc
  let acc := if dirs.any (fun d => strIncludes d "store" || strIncludes d "redux") then setAdd acc "State Management" else acc
  let acc := if dirs.any (fun d => strIncludes d "middleware") then setAdd acc "Middleware Pattern" else acc
  let acc := if dirs.any (fun d => strIncludes d "controllers") then setAdd acc "MVC Pattern" else acc
  let acc := if dirs.any (fun d => strIncludes d "services") then setAdd acc "Service Layer" else acc
  let acc := if dirs.any (fun d => strIncludes d "utils" || strIncludes d "helpers") then setAdd acc "Utility Functions" else acc
  let acc := if dirs.any (fun d => strIncludes d "types") then setAdd acc "Type Definitions" else acc
  let acc := if files.any (fun f => strIncludes f "test" || strIncludes f "spec") then setAdd acc "Unit Testing" else acc
  let acc := if files.any (fun f => strIncludes f "e2e") then setAdd acc "E2E Testing" else acc
  let acc := if files.any (fun f => strIncludes f "docker") then setAdd acc "Containerization" else acc
  if files.any (fun f => strIncludes f "ci" || strIncludes f ".yml") then setAdd acc "CI/CD" else acc

/-- The three complexity labels. -/
inductive Complexity where
  | low | medium | high
  deriving Repr, DecidableEq

/-- The accumulated complexity points of `assessComplexity`. -/
def complexityScore (ps : ProjectStructure) : Nat :=
  let fileCount := ps.files.length
  let dirCount := ps.directories.length
  let langCount := ps.languages.length
  let packageCount := ps.packageJsons.length
  (if fileCount > 50 then 2 else if fileCount > 20 then 1 else 0)
    + (if dirCount > 20 then 2 else if dirCount > 10 then 1 else 0)
    + (if langCount > 3 then 1 else 0)
    + (if packageCount > 1 then 1 else 0)

/-- `CodeAnalyzer.assessComplexity`: the thresholds on file count,
directory count, language count and manifest count, then the two score
cutoffs. -/
def assessComplexity (ps : ProjectStructure) : Complexity :=
  let score := complexityScore ps
  if score ≥ 4 then Complexity.high
  else if score ≥ 2 then Complexity.medium
  else Complexity.low

/-- `CodeAnalyzer.inferMainPurpose`: the ordered chain of early-return
checks, ending in the language fallback and the generic default. -/
def inferMainPurpose (repo : Repository) (ps : ProjectStructure) : String :=
  let name := strToLower repo.name
  let desc := strToLower (repo.description.getD "")
  let dirs := ps.directories.map (fun d => strToLower d)
  let hasPackageJson := ps.packageJsons.length > 0
  if dirs.any (fun d => strIncludes d "components" || strIncludes d "pages") then
    "Web Application"
  else if dirs.any (fun d =>
      strIncludes d "routes" || strIncludes d "controllers" || strIncludes d "api") then
    "API Server"
  else if hasPackageJson && (strIncludes name "lib" || strIncludes desc "library") then
    "Library/Package"
  else if dirs.any (fun d => strIncludes d "cli" || strIncludes d "bin") then
    "CLI Tool"
  else if dirs.any (fun d => strIncludes d "android" || strIncludes d "ios") then
    "Mobile Application"
  else
    let languages := ps.languages.map Prod.fst
    if languages.contains "html" || languages.contains "css" then "Website"
    else "Software Project"

/-- `CodeAnalyzer.extractKeyFeatures`: substring rules over merged
dependency keys, then over lowercased directory paths. -/
def extractKeyFeatures (ps : ProjectStructure) : List String :=
  let fromDeps :=
    ps.packageJsons.foldl
      (fun acc pkg =>
        (depKeys pkg).foldl
          (fun acc dep =>
            let acc := if strIncludes dep "auth" then setAdd acc "Authentication" else acc
            let acc := if strIncludes dep "payment" || strIncludes dep "stripe" then setAdd acc "Payment Processing" else acc
            let acc := if strIncludes dep "upload" then setAdd acc "File Upload" else acc
            let acc := if strIncludes dep "email" then setAdd acc "Email Integration" else acc
            let acc := if strIncludes dep "chart" || strIncludes dep "graph" then setAdd acc "Data Visualization" else acc
            let acc := if strIncludes dep "map" then setAdd acc "Maps Integration" else acc
            let acc := if strIncludes dep "socket" then setAdd acc "Real-time Communication" else acc
            let acc := if strIncludes dep "test" then setAdd acc "Testing Suite" else acc
            if strIncludes dep "deploy" then setAdd acc "Deployment Tools" else acc)
          acc)
      []
  let dirs := ps.directories.map (fun d => strToLower d)
  let acc := fromDeps
  let acc := if dirs.any (fun d => strIncludes d "admin") then setAdd acc "Admin Panel" else acc
  let acc := if dirs.any (fun d => strIncludes d "dashboard") then setAdd acc "Dashboard" else acc
  let acc := if dirs.any (fun d => strIncludes d "blog") then setAdd acc "Blog System" else acc
  let acc := if dirs.any (fun d => strIncludes d "shop" || strIncludes d "cart") then setAdd acc "E-commerce" else acc
  if dirs.any (fun d => strIncludes d "chat") then setAdd acc "Chat System" else acc

/-- `CodebaseAnalysis` of `src/lib/types.ts`. -/
structure CodebaseAnalysis where
  repository : Repository
  structureSnapshot : ProjectStructure
  frameworks : List String
  technologies : List String
  patterns : List String
  complexity : Complexity
  mainPurpose : String
  keyFeatures : List String
  deriving Repr, DecidableEq

/-- `CodeAnalyzer.analyzeCodebase`: the pure composition of the six
classifiers over the given repository record and structure snapshot. -/
def analyzeCodebase (repo : Repository) (ps : ProjectStructure) :
    CodebaseAnalysis :=
  { repository := repo, structureSnapshot := ps,
    frameworks := detectFrameworks ps,
    technologies := detectTechnologies ps,
    patterns := detectPatterns ps,
    complexity := assessComplexity ps,
    mainPurpose := inferMainPurpose repo ps,
    keyFeatures := extractKeyFeatures ps }

/-! ## Security scanner (`src/mastra/tools/github-security.ts`) -/

/-- The four issue severities. -/
inductive Severity where
  | low | medium | high | critical
  deriving Repr, DecidableEq

/-- One entry of the `securityIssues` array built by
`securityScanTool.execute`. -/
structure SecurityIssue where
  type : String
  severity : Severity
  description : String
  file : Option String := none
  recommendation : String
  deriving Repr, DecidableEq

/-- The sensitive-file filter: `file.name.includes(".env") || ... `.
Note the first pattern is `".env"` with the dot, and all five matches are
case-sensitive. -/
def isSensitiveName (name : String) : Bool :=
  strIncludes name ".env" || strIncludes name "secret"
    || strIncludes name "key" || strIncludes name "password"
    || strIncludes name "token"

/-- The issue pushed for one sensitive file. -/
def sensitiveFileIssue (f : FileContent) : SecurityIssue :=
  { type := "sensitive_file", severity := Severity.high,
    description := "Potentially sensitive file found: " ++ f.name,
    file := some f.path,
    recommendation :=
      "Ensure sensitive files are in .gitignore and never committed to version control" }

/-- The issue pushed when a manifest's JSON text holds a secret-like
substring. -/
def hardcodedSecretIssue : SecurityIssue :=
  { type := "hardcoded_secret", severity := Severity.critical,
    description := "Potential hardcoded secrets found in package.json",
    recommendation := "Use environment variables for sensitive configuration" }

/-- The issue pushed when no security-config-named file exists. -/
def missingSecurityConfigIssue : SecurityIssue :=
  { type := "missing_security_config", severity := Severity.medium,
    description := "No security configuration files found",
    recommendation :=
      "Add security headers, CSP policies, and other security configurations" }

/-- The issue pushed for one manifest with naive-outdated dependencies. -/
def outdatedDependenciesIssue (names : List String) : SecurityIssue :=
  { type := "outdated_dependencies", severity := Severity.medium,
    description :=
      "Potentially outdated dependencies: " ++ String.intercalate ", " names,
    recommendation :=
      "Update dependencies to latest secure versions and run vulnerability scans" }

/-- The issue pushed when no file content indicates HTTPS. -/
def missingHttpsIssue : SecurityIssue :=
  { type := "missing_https", severity := Severity.medium,
    description := "No HTTPS enforcement configuration found",
    recommendation :=
      "Ensure all connections use HTTPS and implement proper SSL/TLS configuration" }

/-- The naive outdated-dependency walk over one manifest's merged
dependency entries: caret version range and a name containing `old`. -/
def outdatedDepsOf (pkg : PackageJson) : List String :=
  (spreadMerge pkg.dependencies pkg.devDependencies).foldl
    (fun acc p =>
      if strIncludes p.2 "^" && strIncludes p.1 "old" then acc ++ [p.1]
      else acc)
    []

/-- `hasSecurityConfig`: a file whose name mentions security or CSP. -/
def hasSecurityConfig (files : List FileContent) : Bool :=
  files.any (fun f =>
    strIncludes f.name "security" || strIncludes f.name ".security"
      || strIncludes f.name "csp")

/-- `hasHttpsConfig`: some fetched file content indicates HTTPS/SSL. -/
def hasHttpsConfig (files : List FileContent) : Bool :=
  files.any (fun f =>
    match f.content with
    | some c =>
        strIncludes c "https://" || strIncludes c "secure: true"
          || strIncludes c "ssl: true"
    | none => false)

/-- The full `securityIssues` array of `securityScanTool.execute` over a
structure snapshot.  `JSON.stringify` is external and passed as the
`stringify` parameter. -/
def securityIssuesOf (stringify : PackageJson → String)
    (ps : ProjectStructure) : List SecurityIssue :=
  let sensitive :=
    (ps.files.filter (fun f => isSensitiveName f.name)).map sensitiveFileIssue
  let hardcoded :=
    ps.packageJsons.foldl
      (fun acc pkg =>
        let pkgStr := stringify pkg
        if strIncludes pkgStr "password" || strIncludes pkgStr "secret"
            || strIncludes pkgStr "token" then
          acc ++ [hardcodedSecretIssue]
        else acc)
      []
  let securityConfig :=
    if hasSecurityConfig ps.files then [] else [missingSecurityConfigIssue]
  let outdated :=
    ps.packageJsons.foldl
      (fun acc pkg =>
        if (outdatedDepsOf pkg).length > 0 then
          acc ++ [outdatedDependenciesIssue (outdatedDepsOf pkg)]
        else acc)
      []
  let https := if hasHttpsConfig ps.files then [] else [missingHttpsIssue]
  sensitive ++ hardcoded ++ securityConfig ++ outdated ++ https

/-- `issues.filter(issue => issue.severity === sev).length`. -/
def countSeverity (sev : Severity) (issues : List SecurityIssue) : Nat :=
  (issues.filter (fun i => i.severity = sev)).length

/-- The score formula of `securityScanTool.execute`:
`Math.max(0, 100 - critical*25 - high*15 - medium*10 - low*5)`. -/
def securityScore (issues : List SecurityIssue) : Int :=
  max 0
    (100 - (countSeverity Severity.critical issues : Int) * 25
      - (countSeverity Severity.high issues : Int) * 15
      - (countSeverity Severity.medium issues : Int) * 10
      - (countSeverity Severity.low issues : Int) * 5)

/-- The security score the scan reports for a structure snapshot. -/
def securityScanScore (stringify : PackageJson → String)
    (ps : ProjectStructure) : Int :=
  securityScore (securityIssuesOf stringify ps)

/-! ## Repository listing tool (`src/mastra/tools/github-repository.ts`) -/

/-- The `sortBy` vocabulary of `listRepositoriesTool`'s input schema. -/
inductive SortKind where
  | updated | created | byName | stars
  deriving Repr, DecidableEq

/-- The sort comparator of `listRepositoriesTool.execute`.
`new Date(-).getTime()` and `String.prototype.localeCompare` are external
and passed as parameters.  `stars` falls through to the `default` branch:
`return 0`. -/
def compareRepos (getTime : String → Int) (localeCompare : String → String → Int)
    (sortBy : SortKind) (a b : Repository) : Int :=
  match sortBy with
  | SortKind.updated => getTime b.updatedAt - getTime a.updatedAt
  | SortKind.created => getTime b.createdAt - getTime a.createdAt
  | SortKind.byName => localeCompare a.name b.name
  | SortKind.stars => 0

/-- Stable insertion of `x` after every earlier element not strictly
greater than it — the placement a stable `Array.prototype.sort`
guarantees for elements the comparator ties. -/
def insertStable (cmp : α → α → Int) (x : α) : List α → List α
  | [] => [x]
  | y :: ys => if cmp y x ≤ 0 then y :: insertStable cmp x ys else x :: y :: ys

/-- `Array.prototype.sort(cmp)` modelled as a stable sort: elements are
inserted left to right, each after the elements it ties with. -/
def sortJs (cmp : α → α → Int) (l : List α) : List α :=
  l.foldl (fun acc x => insertStable cmp x acc) []

/-- The input of `listRepositoriesTool` (schema defaults:
`sortBy = updated`, `limit = 50`, `includePrivate = true`). -/
structure ListParams where
  language : Option String := none
  sortBy : SortKind := SortKind.updated
  limit : Nat := 50
  includePrivate : Bool := true
  deriving Repr

/-- The filter steps of `listRepositoriesTool.execute`: the visibility
filter, then — only when `language` is truthy (present and non-empty) —
the case-insensitive language equality filter. -/
def filterRepos (p : ListParams) (repos : List Repository) :
    List Repository :=
  let f1 := repos.filter (fun r => p.includePrivate || !r.isPrivate)
  match p.language with
  | some lang =>
      if lang = "" then f1
      else
        f1.filter (fun r =>
          match r.language with
          | some l => strToLower l = strToLower lang
          | none => false)
  | none => f1

/-- The repositories returned by `listRepositoriesTool.execute` over the
fetched list: filter, sort, then `slice(0, limit)`. -/
def listRepositoriesExecute (getTime : String → Int)
    (localeCompare : String → String → Int) (p : ListParams)
    (repos : List Repository) : List Repository :=
  (sortJs (compareRepos getTime localeCompare p.sortBy) (filterRepos p repos)).take p.limit

/-! ## Codebase analysis tool (`src/mastra/tools/github-analyzer.ts`) -/

/-- `analyzeCodebaseTool.execute` from the repository lookup on: find the
repository among the fetched ones, fetch the structure through the
service (`getRepositoryStructure(owner, repo)` — the tool's validated
`maxDepth` input is destructured but not forwarded, so the traversal
runs with its default `maxDepth = 3`), then run the analyzer. -/
def analyzeCodebaseExecute (parseJson : String → Option PackageJson)
    (maxDepth : Nat) (repos : List Repository) (owner repoName : String)
    (accountExists : Bool) (rootListing : Except String (List GitTree)) :
    Except ServiceError CodebaseAnalysis :=
  match repos.find? (fun r => r.name = repoName && r.username = owner) with
  | none =>
      Except.error (ServiceError.upstream
        ("Repository " ++ owner ++ "/" ++ repoName ++ " not found or not accessible"))
  | some repository =>
      match getRepositoryStructureMulti parseJson accountExists owner rootListing with
      | Except.error e => Except.error e
      | Except.ok ps => Except.ok (analyzeCodebase repository ps)

/-! ## Shared lemmas -/

theorem countSeverity_cons (sev : Severity) (i : SecurityIssue)
    (issues : List SecurityIssue) :
    countSeverity sev (i :: issues) =
      countSeverity sev issues + (if i.severity = sev then 1 else 0) := by
  simp only [countSeverity, List.filter_cons]
  split
  · next h =>
    simp only [List.length_cons]
    have : i.severity = sev := by simpa using h
    simp [this]
  · next h =>
    have : ¬ i.severity = sev := by simpa using h
    simp [this]

/-! ## Claim theorems -/

/-- C6: for every structure snapshot the security score the scan reports
equals `max(0, 100 − 25·critical − 15·high − 10·medium − 5·low)` over the
issues the scan found; the score never increases when an issue of any
severity is added, is never negative, and five critical issues drive it
exactly to 0. -/
theorem securityScore_formula_monotone_floored :
    (∀ (stringify : PackageJson → String) (ps : ProjectStructure),
        securityScanScore stringify ps =
          max 0 (100
            - 25 * (countSeverity Severity.critical (securityIssuesOf stringify ps) : Int)
            - 15 * (countSeverity Severity.high (securityIssuesOf stringify ps) : Int)
            - 10 * (countSeverity Severity.medium (securityIssuesOf stringify ps) : Int)
            - 5 * (countSeverity Severity.low (securityIssuesOf stringify ps) : Int)))
    ∧ (∀ (i : SecurityIssue) (issues : List SecurityIssue),
        securityScore (i :: issues) ≤ securityScore issues)
    ∧ (∀ issues : List SecurityIssue, 0 ≤ securityScore issues)
    ∧ securityScore (List.replicate 5 hardcodedSecretIssue) = 0 := by
  refine ⟨?_, ?_, ?_, ?_⟩
  · intro stringify ps
    unfold securityScanScore securityScore
    congr 1
    ring
  · intro i issues
    unfold securityScore
    apply max_le_max le_rfl
    rcases hi : i.severity <;>
      simp only [countSeverity_cons, hi, if_pos, if_neg, reduceCtorEq,
        ite_true, ite_false, reduceIte] <;>
      push_cast <;> omega
  · intro issues
    exact le_max_left 0 _
  · decide

/-- The complexity points, as the specification words them: file count
over 50 adds 2 (else over 20 adds 1), directory count over 20 adds 2
(else over 10 adds 1), more than 3 distinct languages adds 1, more than
one manifest adds 1. -/
def complexityPointsSpec (fileCount dirCount languageCount manifestCount : Nat) : Nat :=
  (if fileCount > 50 then 2 else if fileCount > 20 then 1 else 0)
    + (if dirCount > 20 then 2 else if dirCount > 10 then 1 else 0)
    + (if languageCount > 3 then 1 else 0)
    + (if manifestCount > 1 then 1 else 0)

/-- The labelling cutoffs, as the specification words them. -/
def complexityLabelSpec (score : Nat) : Complexity :=
  if score ≥ 4 then Complexity.high
  else if score ≥ 2 then Complexity.medium
  else Complexity.low

/-- A snapshot with 60 files, 25 directories, 4 distinct languages and 2
manifests, for the end-to-end complexity scenario. -/
def complexityDemoSnapshot : ProjectStructure :=
  { files := List.replicate 60
      { name := "a.ts", path := "a.ts", sha := "", size := 0, url := "" },
    directories := List.replicate 25 "d",
    languages := [("ts", 1), ("js", 1), ("css", 1), ("py", 1)],
    packageJsons := [{}, {}], readmes := [], configs := [] }

/-- C7: `assessComplexity` is exactly the four-threshold integer score
with the `≥ 4` / `≥ 2` cutoffs, and the 60-file / 25-directory /
4-language / 2-manifest snapshot scores 2+2+1+1 = 6 and is labelled
high. -/
theorem assessComplexity_matches_spec :
    (∀ ps : ProjectStructure,
        assessComplexity ps =
          complexityLabelSpec
            (complexityPointsSpec ps.files.length ps.directories.length
              ps.languages.length ps.packageJsons.length))
    ∧ complexityPointsSpec 60 25 4 2 = 2 + 2 + 1 + 1
    ∧ complexityScore complexityDemoSnapshot = 6
    ∧ assessComplexity complexityDemoSnapshot = Complexity.high := by
  refine ⟨?_, by decide, by decide, by decide⟩
  intro ps
  rfl

theorem foldl_guarded_push (q : α → Bool) (g : α → β) (l : List α)
    (init : List β) :
    l.foldl (fun acc x => if q x then acc ++ [g x] else acc) init
      = init ++ (l.filter q).map g := by
  induction l generalizing init with
  | nil => simp
  | cons x xs ih =>
    simp only [List.foldl_cons, List.filter_cons]
    by_cases hq : q x
    · simp [hq, ih]
    · simp [hq, ih]

theorem outdated_foldl_filter (pkgs : List PackageJson)
    (init : List SecurityIssue) :
    pkgs.foldl
        (fun acc pkg =>
          if (outdatedDepsOf pkg).length > 0 then
            acc ++ [outdatedDependenciesIssue (outdatedDepsOf pkg)]
          else acc)
        init
      = init
        ++ (pkgs.filter (fun pkg => decide ((outdatedDepsOf pkg).length > 0))).map
            (fun pkg => outdatedDependenciesIssue (outdatedDepsOf pkg)) := by
  induction pkgs generalizing init with
  | nil => simp
  | cons x xs ih =>
    simp only [List.foldl_cons, List.filter_cons]
    by_cases h : (outdatedDepsOf x).length > 0
    · simp [h, ih]
    · simp [h, ih]

/-- The `securityIssues` array decomposed into the five checks, each as a
filter/map of its inputs. -/
theorem securityIssuesOf_decomposed (stringify : PackageJson → String)
    (ps : ProjectStructure) :
    securityIssuesOf stringify ps =
      (ps.files.filter (fun f => isSensitiveName f.name)).map sensitiveFileIssue
        ++ (ps.packageJsons.filter (fun pkg =>
              strIncludes (stringify pkg) "password"
                || strIncludes (stringify pkg) "secret"
                || strIncludes (stringify pkg) "token")).map
            (fun _ => hardcodedSecretIssue)
        ++ (if hasSecurityConfig ps.files then [] else [missingSecurityConfigIssue])
        ++ (ps.packageJsons.filter
              (fun pkg => (outdatedDepsOf pkg).length > 0)).map
            (fun pkg => outdatedDependenciesIssue (outdatedDepsOf pkg))
        ++ (if hasHttpsConfig ps.files then [] else [missingHttpsIssue]) := by
  unfold securityIssuesOf
  rw [foldl_guarded_push
        (fun pkg => strIncludes (stringify pkg) "password"
          || strIncludes (stringify pkg) "secret"
          || strIncludes (stringify pkg) "token")
        (fun _ => hardcodedSecretIssue),
      outdated_foldl_filter]
  simp

/-- Only the sensitive-file check emits issues typed `sensitive_file`. -/
theorem securityIssuesOf_sensitive_filter (stringify : PackageJson → String)
    (ps : ProjectStructure) :
    (securityIssuesOf stringify ps).filter (fun i => i.type = "sensitive_file")
      = (ps.files.filter (fun f => isSensitiveName f.name)).map
          sensitiveFileIssue := by
  rw [securityIssuesOf_decomposed]
  by_cases hc : hasSecurityConfig ps.files <;>
    by_cases hh : hasHttpsConfig ps.files <;>
      simp [hc, hh, List.filter_append, List.filter_map, Function.comp_def,
        sensitiveFileIssue, hardcodedSecretIssue, outdatedDependenciesIssue,
        missingSecurityConfigIssue, missingHttpsIssue]

/-- A stand-in for `JSON.stringify` in concrete scenarios. -/
def stringifyStub : PackageJson → String := fun _ => ""

/-- A snapshot holding one file named `environment.ts`. -/
def envNameSnapshot : ProjectStructure :=
  { files := [{ name := "environment.ts", path := "src/environment.ts",
                sha := "", size := 0, url := "" }],
    directories := [], languages := [], packageJsons := [],
    readmes := [], configs := [] }

/-- C4 counterexample: `environment.ts` contains the substring `env`, so
the claim demands exactly one `sensitive_file` issue for it — but the
scan matches `".env"` (with the dot), case-sensitively, and emits no
`sensitive_file` issue at all for this snapshot. -/
theorem sensitiveFile_env_substring_refuted :
    strIncludes "environment.ts" "env" = true
    ∧ ((securityIssuesOf stringifyStub envNameSnapshot).filter
        (fun i => i.type = "sensitive_file")).length = 0 := by
  decide

/-- The `.env.production` file and snapshot of the end-to-end scenario. -/
def envProdFile : FileContent :=
  { name := ".env.production", path := ".env.production",
    sha := "", size := 0, url := "" }

/-- Snapshot holding exactly `.env.production`. -/
def envProdSnapshot : ProjectStructure :=
  { files := [envProdFile], directories := [], languages := [],
    packageJsons := [], readmes := [], configs := [] }

/-- C4 (amended): the `sensitive_file` issues are exactly one high issue
per file whose name contains `".env"`, `"secret"`, `"key"`, `"password"`
or `"token"` (case-sensitive), referencing that file's path, and no
other file yields one; a snapshot containing `.env.production` yields
exactly that one high issue referencing its path. -/
theorem sensitiveFile_issues_exact :
    (∀ (stringify : PackageJson → String) (ps : ProjectStructure),
        (securityIssuesOf stringify ps).filter
            (fun i => i.type = "sensitive_file")
          = (ps.files.filter (fun f => isSensitiveName f.name)).map
              sensitiveFileIssue)
    ∧ isSensitiveName ".env.production" = true
    ∧ (securityIssuesOf stringifyStub envProdSnapshot).filter
        (fun i => i.type = "sensitive_file")
        = [sensitiveFileIssue envProdFile]
    ∧ (sensitiveFileIssue envProdFile).severity = Severity.high
    ∧ (sensitiveFileIssue envProdFile).file = some ".env.production" := by
  refine ⟨securityIssuesOf_sensitive_filter, by decide, ?_, by decide, by decide⟩
  rw [securityIssuesOf_sensitive_filter]
  decide

/-- The ordered rule table of purpose inference, as the specification
describes it: predicate / label pairs tried in order, with
`Software Project` as the final default. -/
def purposeRules : List ((Repository → ProjectStructure → Bool) × String) :=
  [(fun _ ps => (ps.directories.map (fun d => strToLower d)).any
      (fun d => strIncludes d "components" || strIncludes d "pages"),
    "Web Application"),
   (fun _ ps => (ps.directories.map (fun d => strToLower d)).any
      (fun d => strIncludes d "routes" || strIncludes d "controllers"
        || strIncludes d "api"),
    "API Server"),
   (fun repo ps => decide (ps.packageJsons.length > 0)
      && (strIncludes (strToLower repo.name) "lib"
        || strIncludes (strToLower (repo.description.getD "")) "library"),
    "Library/Package"),
   (fun _ ps => (ps.directories.map (fun d => strToLower d)).any
      (fun d => strIncludes d "cli" || strIncludes d "bin"),
    "CLI Tool"),
   (fun _ ps => (ps.directories.map (fun d => strToLower d)).any
      (fun d => strIncludes d "android" || strIncludes d "ios"),
    "Mobile Application"),
   (fun _ ps => (ps.languages.map Prod.fst).contains "html"
      || (ps.languages.map Prod.fst).contains "css",
    "Website")]

/-- First-match evaluation of an ordered rule table. -/
def firstMatchingLabel :
    List ((Repository → ProjectStructure → Bool) × String) →
      Repository → ProjectStructure → String
  | [], _, _ => "Software Project"
  | (p, label) :: rest, repo, ps =>
      if p repo ps then label else firstMatchingLabel rest repo ps

/-- C8: purpose inference is first-match evaluation of the fixed ordered
rule table (web application, API server, library, CLI tool, mobile,
language fallback, generic default), and whenever the snapshot has a
components-like or pages-like directory the answer is `Web Application`
no matter what later rules would match. -/
theorem inferMainPurpose_first_match :
    (∀ (repo : Repository) (ps : ProjectStructure),
        inferMainPurpose repo ps = firstMatchingLabel purposeRules repo ps)
    ∧ (∀ (repo : Repository) (ps : ProjectStructure),
        (ps.directories.map (fun d => strToLower d)).any
            (fun d => strIncludes d "components" || strIncludes d "pages")
            = true →
        inferMainPurpose repo ps = "Web Application") := by
  constructor
  · intro repo ps
    rfl
  · intro repo ps h
    simp only [inferMainPurpose, h, if_true]

/-- A repository record for the purpose-inference scenario. -/
def purposeDemoRepo : Repository :=
  { id := 1, name := "demo-cli", fullName := "alice/demo-cli",
    description := some "a library", language := some "TypeScript",
    stars := 0, forks := 0, size := 0, updatedAt := "", createdAt := "",
    isPrivate := false, url := "", account := "current",
    username := "alice", topics := [], license := none,
    defaultBranch := "main" }

/-- A snapshot whose directories match both the web rule and later rules
(`api`, `cli`). -/
def purposeDemoSnapshot : ProjectStructure :=
  { files := [], directories := ["src/components", "src/api", "src/cli"],
    languages := [("html", 1)], packageJsons := [{}],
    readmes := [], configs := [] }

/-- C8 witness: on a snapshot also matching the API, CLI, library and
language rules, the components directory alone decides the label. -/
theorem inferMainPurpose_first_match_witness :
    inferMainPurpose purposeDemoRepo purposeDemoSnapshot
      = "Web Application" :=
  inferMainPurpose_first_match.2 purposeDemoRepo purposeDemoSnapshot
    (by decide)

theorem insertStable_all_zero {cmp : α → α → Int}
    (h : ∀ a b, cmp a b = 0) (x : α) (l : List α) :
    insertStable cmp x l = l ++ [x] := by
  induction l with
  | nil => rfl
  | cons y ys ih =>
    unfold insertStable
    rw [h y x]
    simp [ih]

theorem sortJs_all_zero {cmp : α → α → Int}
    (h : ∀ a b, cmp a b = 0) (l : List α) :
    sortJs cmp l = l := by
  suffices H : ∀ acc : List α,
      l.foldl (fun acc x => insertStable cmp x acc) acc = acc ++ l by
    simpa using H []
  induction l with
  | nil => simp
  | cons x xs ih =>
    intro acc
    rw [List.foldl_cons, insertStable_all_zero h, ih, List.append_assoc]
    rfl

/-- C9: with `sortBy = "stars"` the comparator hits the shared
`case "stars": default:` branch and returns 0 for every pair, so the
stable sort leaves the filtered list untouched and the tool returns the
repositories in fetch order; the `stars` option never orders by star
count. -/
theorem listRepositories_stars_keeps_fetch_order :
    (∀ (getTime : String → Int) (localeCompare : String → String → Int)
        (a b : Repository),
        compareRepos getTime localeCompare SortKind.stars a b = 0)
    ∧ (∀ (getTime : String → Int) (localeCompare : String → String → Int)
        (p : ListParams) (repos : List Repository),
        p.sortBy = SortKind.stars →
        listRepositoriesExecute getTime localeCompare p repos
          = (filterRepos p repos).take p.limit) := by
  constructor
  · intro _ _ _ _
    rfl
  · intro getTime localeCompare p repos hp
    unfold listRepositoriesExecute
    rw [hp, sortJs_all_zero]
    intro a b
    rfl

/-- Two repositories whose star counts are out of fetch order. -/
def starsDemoRepoA : Repository :=
  { purposeDemoRepo with id := 1, name := "first", stars := 1 }

/-- The second fetched repository, with more stars than the first. -/
def starsDemoRepoB : Repository :=
  { purposeDemoRepo with id := 2, name := "second", stars := 5 }

/-- C9 witness: sorting two repositories by `stars` leaves the
lower-starred, first-fetched one in front. -/
theorem listRepositories_stars_keeps_fetch_order_witness :
    listRepositoriesExecute (fun _ => 0) (fun _ _ => 0)
        { sortBy := SortKind.stars } [starsDemoRepoA, starsDemoRepoB]
      = (filterRepos { sortBy := SortKind.stars }
          [starsDemoRepoA, starsDemoRepoB]).take 50 :=
  listRepositories_stars_keeps_fetch_order.2 (fun _ => 0) (fun _ _ => 0)
    { sortBy := SortKind.stars } [starsDemoRepoA, starsDemoRepoB] rfl

/-- C10: the single-account `getRepositoryStructure` rejects only with
the not-configured error; once configured it always resolves with the
traversal's accumulated snapshot, and when even the root listing fails
(for example a nonexistent repository) the caught error leaves the
snapshot empty in all six aggregate fields. -/
theorem getRepositoryStructure_only_notConfigured :
    (∀ (parseJson : String → Option PackageJson) (configured : Bool)
        (rootListing : Except String (List GitTree)) (e : ServiceError),
        getRepositoryStructureSingle parseJson configured rootListing
            = Except.error e →
        configured = false ∧ e = ServiceError.notConfigured)
    ∧ (∀ (parseJson : String → Option PackageJson)
        (rootListing : Except String (List GitTree)),
        getRepositoryStructureSingle parseJson true rootListing
          = Except.ok
              (traverseRepository parseJson 3 0 rootListing emptyStructure))
    ∧ (∀ (parseJson : String → Option PackageJson) (msg : String),
        getRepositoryStructureSingle parseJson true (Except.error msg)
          = Except.ok
              { files := [], directories := [], languages := [],
                packageJsons := [], readmes := [], configs := [] }) := by
  refine ⟨?_, ?_, ?_⟩
  · intro parseJson configured rootListing e h
    cases configured with
    | false => exact ⟨rfl, by simpa [getRepositoryStructureSingle] using h.symm⟩
    | true => simp [getRepositoryStructureSingle] at h
  · intro parseJson rootListing
    rfl
  · intro parseJson msg
    rfl

/-- C10 witness: concrete instances of the three conjuncts. -/
theorem getRepositoryStructure_only_notConfigured_witness :
    false = false ∧ ServiceError.notConfigured = ServiceError.notConfigured :=
  getRepositoryStructure_only_notConfigured.1 (fun _ => none) false
    (Except.ok []) ServiceError.notConfigured rfl

/-- One configured account whose remote list call rejects. -/
def failingAccount : AccountFetch :=
  { accountId := "account1", username := "alice",
    fetch := Except.error "boom" }

/-- C1 counterexample: in the multi-account `getAllRepositories` of
`src/lib/github-service.ts`, an account whose remote list call errors is
caught, logged and skipped, and the operation resolves with the empty
list instead of rejecting — so an empty result can mean the fetch
failed. -/
theorem getAllRepositories_error_swallowed :
    failingAccount.fetch = Except.error "boom"
    ∧ getAllRepositoriesMulti [failingAccount] false none 0
        = Except.ok ([] : List Repository) := by
  exact ⟨rfl, rfl⟩

/-- C1 (amended): in the single-account service a remote list error is
rethrown wrapped as `Failed to fetch repositories: ...`, and a resolving
call on a cache miss implies the remote fetch succeeded, so an empty
list means zero repositories; the multi-account variant instead
recovers per account and never rejects. -/
theorem getAllRepositoriesSingle_surfaces_upstream :
    (∀ (username nowIso : String) (forceRefresh : Bool) (now : Nat)
        (msg : String),
        getAllRepositoriesSingle true username nowIso forceRefresh none now
            (Except.error msg)
          = Except.error (ServiceError.upstream
              ("Failed to fetch repositories: " ++ msg)))
    ∧ (∀ (username nowIso : String) (forceRefresh : Bool) (now : Nat)
        (remote : Except String (List RemoteRepo))
        (repos : List Repository),
        getAllRepositoriesSingle true username nowIso forceRefresh none now
            remote = Except.ok repos →
        ∃ raw, remote = Except.ok raw
          ∧ repos = raw.map (normalizeRepo "current" username nowIso))
    ∧ (∀ (accounts : List AccountFetch) (forceRefresh : Bool)
        (cached : Option CacheEntry) (now : Nat),
        ∃ l, getAllRepositoriesMulti accounts forceRefresh cached now
          = Except.ok l) := by
  refine ⟨?_, ?_, ?_⟩
  · intro username nowIso forceRefresh now msg
    rfl
  · intro username nowIso forceRefresh now remote repos h
    cases remote with
    | ok raw =>
      refine ⟨raw, rfl, ?_⟩
      simpa [getAllRepositoriesSingle] using h.symm
    | error msg => simp [getAllRepositoriesSingle] at h
  · intro accounts forceRefresh cached now
    cases cached with
    | none => exact ⟨_, rfl⟩
    | some e =>
      simp only [getAllRepositoriesMulti]
      split
      · exact ⟨_, rfl⟩
      · exact ⟨_, rfl⟩

/-- C1 witness: the amended behaviour at concrete inputs — a failing
remote rejects upstream, and a succeeding remote resolves with the
normalized page. -/
theorem getAllRepositoriesSingle_surfaces_upstream_witness :
    getAllRepositoriesSingle true "alice" "2024-01-01" false none 0
        (Except.error "boom")
      = Except.error (ServiceError.upstream
          ("Failed to fetch repositories: " ++ "boom")) :=
  getAllRepositoriesSingle_surfaces_upstream.1 "alice" "2024-01-01" false 0
    "boom"

theorem traverseItemsLog_le (m d : Nat) (items : List GitTree) :
    ∀ x ∈ traverseItemsLog m d items, x ≤ m :=
  match items with
  | [] => by simp [traverseItemsLog]
  | GitTree.file meta :: rest => by
      simpa [traverseItemsLog] using traverseItemsLog_le m d rest
  | GitTree.dirOk p children :: rest => by
      intro x hx
      simp only [traverseItemsLog, List.mem_append] at hx
      rcases hx with hx | hx
      · by_cases hguard : d + 1 > m
        · simp [hguard] at hx
        · simp only [if_neg hguard] at hx
          rcases List.mem_cons.mp hx with rfl | hx
          · omega
          · exact traverseItemsLog_le m (d + 1) children x hx
      · exact traverseItemsLog_le m d rest x hx
  | GitTree.dirErr p :: rest => by
      intro x hx
      simp only [traverseItemsLog, List.mem_append] at hx
      rcases hx with hx | hx
      · by_cases hguard : d + 1 > m
        · simp [hguard] at hx
        · simp only [if_neg hguard] at hx
          rcases List.mem_singleton.mp hx with rfl
          omega
      · exact traverseItemsLog_le m d rest x hx

theorem traverseLog_le (m d : Nat) (listing : Except String (List GitTree)) :
    ∀ x ∈ traverseLog m d listing, x ≤ m := by
  intro x hx
  unfold traverseLog at hx
  by_cases hguard : d > m
  · simp [hguard] at hx
  · rw [if_neg hguard] at hx
    cases listing with
    | error msg =>
      rcases List.mem_singleton.mp hx with rfl
      omega
    | ok items =>
      rcases List.mem_cons.mp hx with rfl | hx
      · omega
      · exact traverseItemsLog_le m d items x hx

theorem traverseItems_depth_zero (parseJson : String → Option PackageJson)
    (items : List GitTree) (s : ProjectStructure) :
    traverseItems parseJson 0 0 items s = rootOnlyPass parseJson items s := by
  induction items generalizing s with
  | nil => simp [traverseItems, rootOnlyPass]
  | cons it rest ih =>
    cases it with
    | file meta => simp [traverseItems, rootOnlyPass, List.foldl_cons, ih]
    | dirOk p children =>
        simp [traverseItems, rootOnlyPass, List.foldl_cons, ih]
    | dirErr p => simp [traverseItems, rootOnlyPass, List.foldl_cons, ih]

/-- C3: the depth guard returns immediately past `maxDepth`, every
listing call the traversal actually issues happens at a depth at most
`maxDepth`, and with `maxDepth = 0` the traversal processes exactly the
root-level entries — root subdirectories contribute only their paths and
no subdirectory's entries are ever examined. -/
theorem traversal_depth_bounded :
    (∀ (maxDepth : Nat) (listing : Except String (List GitTree)),
        ∀ x ∈ traverseLog maxDepth 0 listing, x ≤ maxDepth)
    ∧ (∀ (parseJson : String → Option PackageJson)
        (maxDepth currentDepth : Nat)
        (listing : Except String (List GitTree)) (s : ProjectStructure),
        currentDepth > maxDepth →
        traverseRepository parseJson maxDepth currentDepth listing s = s)
    ∧ (∀ (parseJson : String → Option PackageJson) (items : List GitTree)
        (s : ProjectStructure),
        traverseRepository parseJson 0 0 (Except.ok items) s
          = rootOnlyPass parseJson items s) := by
  refine ⟨fun m listing => traverseLog_le m 0 listing, ?_, ?_⟩
  · intro parseJson m d listing s h
    simp [traverseRepository, h]
  · intro parseJson items s
    simpa [traverseRepository] using traverseItems_depth_zero parseJson items s

/-- C3 witness: on a tree whose root holds one failing subdirectory,
with `maxDepth = 1`, the logged depth 1 is within the bound, and a call
entered past the bound returns its structure untouched. -/
theorem traversal_depth_bounded_witness :
    (1 : Nat) ≤ 1
    ∧ traverseRepository (fun _ => none) 1 2 (Except.ok []) emptyStructure
        = emptyStructure :=
  ⟨traversal_depth_bounded.1 1 (Except.ok [GitTree.dirErr "a"]) 1
      (by simp [traverseLog, traverseItemsLog]),
   traversal_depth_bounded.2.1 (fun _ => none) 1 2 (Except.ok [])
      emptyStructure (by omega)⟩

/-- The truthy extension of a file name: the `getFileExtension` value
exactly when the source's `if (extension)` guard lets it through, i.e.
when it is neither `null` (no dot in the name) nor the falsy empty
string (name ending in a dot). -/
def usableExtension (fileName : String) : Option String :=
  match getFileExtension fileName with
  | some ext => if ext = "" then none else some ext
  | none => none

/-- How many of `files` carry the (lowercased, after the last dot,
non-empty) extension `k`. -/
def extCount (files : List FileContent) (k : String) : Nat :=
  (files.filter (fun f => usableExtension f.name = some k)).length

/-- The languages-map invariant: the entry at key `k` is exactly the
number of files with extension `k`, absent when that number is zero. -/
def languagesConsistent (ps : ProjectStructure) : Prop :=
  ∀ k : String,
    langLookup ps.languages k =
      if extCount ps.files k = 0 then none else some (extCount ps.files k)

theorem buildFileInfo_name (meta : FileMeta) :
    (buildFileInfo meta).name = meta.name := by
  unfold buildFileInfo
  repeat' split
  all_goals rfl

theorem processFile_files (parseJson : String → Option PackageJson)
    (s : ProjectStructure) (meta : FileMeta) :
    (processFile parseJson s meta).files = s.files ++ [buildFileInfo meta] := by
  simp only [processFile]
  repeat' split
  all_goals rfl

theorem processFile_languages (parseJson : String → Option PackageJson)
    (s : ProjectStructure) (meta : FileMeta) :
    (processFile parseJson s meta).languages =
      match usableExtension meta.name with
      | some ext => bumpLang s.languages ext
      | none => s.languages := by
  simp only [processFile, usableExtension]
  repeat' split
  all_goals first | rfl | simp_all

theorem langLookup_bumpLang (l : List (String × Nat)) (e k : String) :
    langLookup (bumpLang l e) k =
      if k = e then some ((langLookup l e).getD 0 + 1) else langLookup l k := by
  induction l with
  | nil =>
    simp only [bumpLang, langLookup]
    by_cases h : k = e
    · subst h
      simp
    · rw [if_neg (fun h2 => h h2.symm), if_neg h]
  | cons p rest ih =>
    obtain ⟨k2, v⟩ := p
    simp only [bumpLang]
    by_cases h1 : k2 = e
    · subst h1
      simp only [if_pos rfl, langLookup]
      by_cases h2 : k2 = k
      · subst h2
        simp
      · rw [if_neg h2, if_neg h2, if_neg (fun h3 => h2 h3.symm)]
    · rw [if_neg h1]
      simp only [langLookup]
      by_cases h2 : k2 = k
      · subst h2
        rw [if_pos rfl, if_pos rfl, if_neg h1]
      · rw [if_neg h2, if_neg h2, ih]
        by_cases h3 : k = e
        · subst h3
          rw [if_pos rfl, if_pos rfl, if_neg h2]
        · rw [if_neg h3, if_neg h3]

theorem extCount_append (files : List FileContent) (fi : FileContent)
    (k : String) :
    extCount (files ++ [fi]) k
      = extCount files k
        + (if usableExtension fi.name = some k then 1 else 0) := by
  simp only [extCount, List.filter_append, List.length_append]
  congr 1
  by_cases h : usableExtension fi.name = some k
  · simp [h]
  · simp [h]

theorem processFile_preserves (parseJson : String → Option PackageJson)
    (s : ProjectStructure) (meta : FileMeta)
    (hs : languagesConsistent s) :
    languagesConsistent (processFile parseJson s meta) := by
  intro k
  rw [processFile_languages, processFile_files, extCount_append,
    buildFileInfo_name]
  cases hext : usableExtension meta.name with
  | none => simpa using hs k
  | some ext =>
    have hred : (match some ext with
        | some ext => bumpLang s.languages ext
        | none => s.languages) = bumpLang s.languages ext := rfl
    rw [hred, langLookup_bumpLang]
    by_cases hk : k = ext
    · subst hk
      have hsome : (some k : Option String) = some k := rfl
      rw [if_pos rfl, if_pos hsome, hs k]
      by_cases hc : extCount s.files k = 0
      · simp [hc]
      · simp [hc]
    · have hne : ¬ ((some ext : Option String) = some k) := by
        simp only [Option.some.injEq]
        exact fun h => hk h.symm
      rw [if_neg hk, if_neg hne, hs k]
      simp

theorem traverseItems_preserves (parseJson : String → Option PackageJson)
    (m d : Nat) (items : List GitTree) (s : ProjectStructure)
    (hs : languagesConsistent s) :
    languagesConsistent (traverseItems parseJson m d items s) :=
  match items with
  | [] => by simpa [traverseItems] using hs
  | GitTree.file meta :: rest => by
      rw [show traverseItems parseJson m d (GitTree.file meta :: rest) s
            = traverseItems parseJson m d rest (processFile parseJson s meta) by
          simp [traverseItems]]
      exact traverseItems_preserves parseJson m d rest _
        (processFile_preserves parseJson s meta hs)
  | GitTree.dirOk p children :: rest => by
      have hs1 : languagesConsistent
          { s with directories := s.directories ++ [p] } := hs
      rw [show traverseItems parseJson m d (GitTree.dirOk p children :: rest) s
            = traverseItems parseJson m d rest
                (if d + 1 > m then { s with directories := s.directories ++ [p] }
                 else traverseItems parseJson m (d + 1) children
                   { s with directories := s.directories ++ [p] }) by
          simp [traverseItems]]
      by_cases hguard : d + 1 > m
      · rw [if_pos hguard]
        exact traverseItems_preserves parseJson m d rest _ hs1
      · rw [if_neg hguard]
        exact traverseItems_preserves parseJson m d rest _
          (traverseItems_preserves parseJson m (d + 1) children _ hs1)
  | GitTree.dirErr p :: rest => by
      have hs1 : languagesConsistent
          { s with directories := s.directories ++ [p] } := hs
      rw [show traverseItems parseJson m d (GitTree.dirErr p :: rest) s
            = traverseItems parseJson m d rest
                { s with directories := s.directories ++ [p] } by
          simp [traverseItems]]
      exact traverseItems_preserves parseJson m d rest _ hs1

theorem traverseRepository_preserves (parseJson : String → Option PackageJson)
    (m d : Nat) (listing : Except String (List GitTree))
    (s : ProjectStructure) (hs : languagesConsistent s) :
    languagesConsistent (traverseRepository parseJson m d listing s) := by
  unfold traverseRepository
  by_cases hguard : d > m
  · rw [if_pos hguard]
    exact hs
  · rw [if_neg hguard]
    cases listing with
    | error msg => exact hs
    | ok items => exact traverseItems_preserves parseJson m d items s hs

theorem langLookup_none_iff (l : List (String × Nat)) (k : String) :
    langLookup l k = none ↔ k ∉ l.map Prod.fst := by
  induction l with
  | nil => simp [langLookup]
  | cons p rest ih =>
    obtain ⟨k2, v⟩ := p
    by_cases h : k2 = k
    · subst h
      simp [langLookup]
    · simp only [langLookup, if_neg h, List.map_cons, List.mem_cons, ih]
      constructor
      · intro hnot hor
        rcases hor with h2 | h2
        · exact h h2.symm
        · exact hnot h2
      · intro hnot h2
        exact hnot (Or.inr h2)

theorem extCount_pos_iff (files : List FileContent) (k : String) :
    extCount files k ≠ 0 ↔ ∃ f ∈ files, usableExtension f.name = some k := by
  constructor
  · intro h
    have hne : files.filter (fun f => usableExtension f.name = some k)
        ≠ [] := by
      intro hnil
      rw [extCount, hnil] at h
      simp at h
    rcases List.exists_mem_of_ne_nil _ hne with ⟨f, hf⟩
    rcases List.mem_filter.mp hf with ⟨hmem, hp⟩
    exact ⟨f, hmem, by simpa using hp⟩
  · rintro ⟨f, hmem, hp⟩ h0
    have hin : f ∈ files.filter (fun f => usableExtension f.name = some k) :=
      List.mem_filter.mpr ⟨hmem, by simpa using hp⟩
    rw [extCount, List.length_eq_zero] at h0
    rw [h0] at hin
    simp at hin

/-- C5: for every snapshot a completed traversal produces, the languages
map holds key `k` exactly when some file has lowercase extension `k`
(the lowercased, non-empty text after the last dot — the truthy values
the source's `if (extension)` guard admits), with the count of those
files as its value; a file with no dot in its name (such as
`Dockerfile`) has no extension and contributes no entry, and neither
does a name ending in a dot, whose empty extension is falsy. -/
theorem traversal_languages_exact :
    (∀ (parseJson : String → Option PackageJson) (maxDepth : Nat)
        (listing : Except String (List GitTree)) (k : String),
        langLookup
            (traverseRepository parseJson maxDepth 0 listing
              emptyStructure).languages k
          = if extCount (traverseRepository parseJson maxDepth 0 listing
                emptyStructure).files k = 0
            then none
            else some (extCount (traverseRepository parseJson maxDepth 0
              listing emptyStructure).files k))
    ∧ (∀ (parseJson : String → Option PackageJson) (maxDepth : Nat)
        (listing : Except String (List GitTree)) (k : String),
        k ∈ (traverseRepository parseJson maxDepth 0 listing
              emptyStructure).languages.map Prod.fst
          ↔ ∃ f ∈ (traverseRepository parseJson maxDepth 0 listing
              emptyStructure).files, usableExtension f.name = some k)
    ∧ usableExtension "Dockerfile" = none
    ∧ usableExtension "a." = none := by
  have hempty : languagesConsistent emptyStructure := by
    intro k
    simp [emptyStructure, langLookup, extCount]
  have hmain : ∀ (parseJson : String → Option PackageJson) (maxDepth : Nat)
      (listing : Except String (List GitTree)),
      languagesConsistent
        (traverseRepository parseJson maxDepth 0 listing emptyStructure) :=
    fun parseJson maxDepth listing =>
      traverseRepository_preserves parseJson maxDepth 0 listing
        emptyStructure hempty
  refine ⟨fun parseJson maxDepth listing => hmain parseJson maxDepth listing,
    ?_, by decide, by decide⟩
  intro parseJson maxDepth listing k
  have h := hmain parseJson maxDepth listing k
  rw [← extCount_pos_iff]
  constructor
  · intro hk
    by_contra hc
    rw [if_pos hc] at h
    exact (langLookup_none_iff _ _).mp h hk
  · intro hk
    by_contra hmem
    have hnone := (langLookup_none_iff _ _).mpr hmem
    have h2 := h.symm.trans hnone
    rw [if_neg hk] at h2
    exact Option.noConfusion h2

/-- C5 witness: a concrete traversal whose files are `deep.ts` under two
directory levels — the languages map holds exactly `ts ↦ 1`. -/
theorem traversal_languages_exact_witness :
    langLookup
        (traverseRepository (fun _ => none) 3 0
          (Except.ok
            [GitTree.dirOk "a"
              [GitTree.dirOk "a/b"
                [GitTree.file
                  { name := "deep.ts", path := "a/b/deep.ts", sha := "",
                    size := 0, htmlUrl := none,
                    fetchResult := Except.ok none }]]])
          emptyStructure).languages "ts"
      = if extCount
            (traverseRepository (fun _ => none) 3 0
              (Except.ok
                [GitTree.dirOk "a"
                  [GitTree.dirOk "a/b"
                    [GitTree.file
                      { name := "deep.ts", path := "a/b/deep.ts", sha := "",
                        size := 0, htmlUrl := none,
                        fetchResult := Except.ok none }]]])
              emptyStructure).files "ts" = 0
        then none
        else some (extCount
            (traverseRepository (fun _ => none) 3 0
              (Except.ok
                [GitTree.dirOk "a"
                  [GitTree.dirOk "a/b"
                    [GitTree.file
                      { name := "deep.ts", path := "a/b/deep.ts", sha := "",
                        size := 0, htmlUrl := none,
                        fetchResult := Except.ok none }]]])
              emptyStructure).files "ts") :=
  traversal_languages_exact.1 (fun _ => none) 3
    (Except.ok
      [GitTree.dirOk "a"
        [GitTree.dirOk "a/b"
          [GitTree.file
            { name := "deep.ts", path := "a/b/deep.ts", sha := "",
              size := 0, htmlUrl := none,
              fetchResult := Except.ok none }]]])
    "ts"

/-- A stand-in for `JSON.parse` in concrete scenarios. -/
def parseStub : String → Option PackageJson := fun _ => none

/-- The repository record the analyze-codebase scenario runs on. -/
def analyzeDemoRepo : Repository :=
  { id := 7, name := "demo", fullName := "alice/demo",
    description := none, language := some "TypeScript", stars := 0,
    forks := 0, size := 0, updatedAt := "", createdAt := "",
    isPrivate := false, url := "", account := "account1",
    username := "alice", topics := [], license := none,
    defaultBranch := "main" }

/-- A file nested two directory levels below the repository root. -/
def deepMeta : FileMeta :=
  { name := "deep.ts", path := "a/b/deep.ts", sha := "", size := 0,
    htmlUrl := none, fetchResult := Except.ok none }

/-- A remote tree whose only file sits two directory levels deep. -/
def deepTree : List GitTree :=
  [GitTree.dirOk "a" [GitTree.dirOk "a/b" [GitTree.file deepMeta]]]

/-- C2 (code bug): `analyzeCodebaseTool.execute` destructures its
validated `maxDepth` input (schema: 1–5, default 3, described as
"Maximum directory depth to analyze") but never forwards it, so the
snapshot is always built by the default `maxDepth = 3` traversal:
for every accepted `maxDepth` the result equals the `maxDepth = 3` run,
and at `maxDepth = 1` the returned analysis still contains `deep.ts`,
nested two directory levels deep, which a traversal bounded by the
claimed `maxDepth = 1` does not visit. -/
theorem analyzeCodebase_ignores_maxDepth :
    (∀ (parseJson : String → Option PackageJson) (maxDepth : Nat)
        (repos : List Repository) (owner repoName : String)
        (accountExists : Bool) (listing : Except String (List GitTree)),
        analyzeCodebaseExecute parseJson maxDepth repos owner repoName
            accountExists listing
          = analyzeCodebaseExecute parseJson 3 repos owner repoName
              accountExists listing)
    ∧ analyzeCodebaseExecute parseStub 1 [analyzeDemoRepo] "alice" "demo"
        true (Except.ok deepTree)
        = Except.ok (analyzeCodebase analyzeDemoRepo
            (traverseRepository parseStub 3 0 (Except.ok deepTree)
              emptyStructure))
    ∧ ((traverseRepository parseStub 3 0 (Except.ok deepTree)
          emptyStructure).files.map (fun f => f.name)).contains "deep.ts"
        = true
    ∧ ((traverseRepository parseStub 1 0 (Except.ok deepTree)
          emptyStructure).files.map (fun f => f.name)).contains "deep.ts"
        = false := by
  refine ⟨?_, ?_, ?_, ?_⟩
  · intro parseJson maxDepth repos owner repoName accountExists listing
    rfl
  · rfl
  · simp [traverseRepository, traverseItems, processFile, deepTree, deepMeta,
      emptyStructure, shouldFetchContent, importantFiles, strIncludes,
      strToLower, isConfigFile, configPatterns, getFileExtension,
      splitOnChar, bumpLang, listHasInfix, listStartsWith, buildFileInfo,
      parseStub]
  · simp [traverseRepository, traverseItems, processFile, deepTree, deepMeta,
      emptyStructure]

end GithubPartner
